import Mathlib

/-!
Verification of the Reelify video-processor core (src/app.py) against its
natural-language specification.

The Python source is shallowly embedded:

* `get_reel_segments` (app.py:44-62) becomes `getChunks`, `mapMLog`
  (the per-window summarization loop with its fail-fast exception
  behaviour and its sequence of service calls), `highlightTimeline`
  (the timeline-building loop over `enumerate(highlights[:total_segments], 1)`)
  and `getReelSegments` (the formatted multi-line string).
* `format_timestamp` (app.py:39-42) becomes `formatTimestamp`.
* the "Create 30s Chunks" button handler (app.py:125-155) becomes
  `splitChunks` over an abstract workspace state.
* `safe_delete_dir` (app.py:16-31) plus the "Clean Temporary Files"
  handler (app.py:201-211) become `wipeForest` / `resetDir` over an
  explicit directory-tree datatype.
* the per-audio transcription loop (app.py:169-186) becomes
  `detectLanguage` / `transcribeCall`.

The opaque external services (summarization, media transform) are
parameters: a summarizer is a function from a text window to a result
or an error, the transform service outcome is an `Except` value.
-/

namespace Reelify

/-! ## Highlight timeline extractor (app.py:39-62) -/

/-- One timestamped highlight, `HighlightPoint` of the data model:
1-based ordinal, start offset, end offset (`stop`, since `end` is a
keyword) and the raw summary text for the window. -/
structure HighlightPoint where
  ordinal : Nat
  start : Nat
  stop : Nat
  summary : String
deriving DecidableEq, Repr

/-- Fuel-indexed worker for `getChunks`; the fuel is the transcript
length, so the recursion is structural and computable by the kernel. -/
def getChunksAux : Nat → List Char → List (List Char)
  | 0, _ => []
  | _, [] => []
  | fuel + 1, s => s.take 1000 :: getChunksAux fuel (s.drop 1000)

/-- app.py:45, `chunks = [transcript[i:i+1000] for i in range(0, len(transcript), 1000)]`:
the transcript cut into successive windows of 1000 characters. -/
def getChunks (transcript : List Char) : List (List Char) :=
  getChunksAux transcript.length transcript

/-- The summarization loop app.py:48-50: call the summarizer on each
window in order; a raised exception aborts the loop at once.  Returns
the overall result together with the list of windows actually passed
to the summarization service (in call order). -/
def mapMLog {α β : Type} (f : α → Except String β) :
    List α → Except String (List β) × List α
  | [] => (Except.ok [], [])
  | a :: as =>
    match f a with
    | Except.error e => (Except.error e, [a])
    | Except.ok b =>
      let r := mapMLog f as
      (r.1.map (fun bs => b :: bs), a :: r.2)

/-- app.py:52, `total_segments = min(5, len(highlights))`. -/
def totalSegments (highlights : List String) : Nat := min 5 highlights.length

/-- The divisor of app.py:53, `total_segments + 1`. -/
def timeStepDivisor (highlights : List String) : Nat := totalSegments highlights + 1

/-- app.py:53, `time_step = video_duration_secs // (total_segments + 1)`. -/
def timeStep (highlights : List String) (videoDurationSecs : Nat) : Nat :=
  videoDurationSecs / timeStepDivisor highlights

/-- The loop app.py:57-60 as a list builder: ordinal counter `i`
starting at 1, running start time, and the fixed start-to-start step;
each point ends 30 seconds after it starts. -/
def buildPoints : List String → Nat → Nat → Nat → List HighlightPoint
  | [], _, _, _ => []
  | p :: rest, i, startTime, step =>
    { ordinal := i, start := startTime, stop := startTime + 30, summary := p } ::
      buildPoints rest (i + 1) (startTime + step) step

/-- app.py:52-60 given the per-window summaries: the ordered
HighlightPoint sequence (the HighlightTimeline of the data model). -/
def highlightTimeline (highlights : List String) (videoDurationSecs : Nat) :
    List HighlightPoint :=
  buildPoints (highlights.take (totalSegments highlights)) 1
    (timeStep highlights videoDurationSecs) (timeStep highlights videoDurationSecs)

/-- app.py:40-42 helper: zero-pad to (at least) two digits, Python `f"{n:02}"`. -/
def pad2 (n : Nat) : String := if n < 10 then "0" ++ toString n else toString n

/-- app.py:39-42 `format_timestamp`: `m, s = divmod(seconds, 60)`;
`h, m = divmod(m, 60)`; `f"{h:02}:{m:02}:{s:02}"`. -/
def formatTimestamp (seconds : Nat) : String :=
  pad2 (seconds / 60 / 60) ++ ":" ++ pad2 (seconds / 60 % 60) ++ ":" ++ pad2 (seconds % 60)

/-- One line of app.py:59:
`f"{i}. {format_timestamp(start_time)} - {format_timestamp(end_time)}: {point.strip()}\n"`. -/
def formatLine (p : HighlightPoint) : String :=
  toString p.ordinal ++ ". " ++ formatTimestamp p.start ++ " - " ++
    formatTimestamp p.stop ++ ": " ++ p.summary.trim ++ "\n"

/-- `get_reel_segments` up to (and including) the timeline mapping,
with the summarization service `summ` passed in explicitly: the
ordered HighlightPoint sequence, or the error of the first failing
summarizer call. -/
def extractTimeline (summ : List Char → Except String String)
    (transcript : List Char) (videoDurationSecs : Nat := 600) :
    Except String (List HighlightPoint) :=
  (mapMLog summ (getChunks transcript)).1.map
    (fun hs => highlightTimeline hs videoDurationSecs)

/-- The sequence of windows handed to the summarization service during
an extraction run (in call order). -/
def summarizerCalls (summ : List Char → Except String String)
    (transcript : List Char) : List (List Char) :=
  (mapMLog summ (getChunks transcript)).2

/-- `get_reel_segments` app.py:44-62 in full: the formatted multi-line
timeline string, or the first summarization failure. -/
def getReelSegments (summ : List Char → Except String String)
    (transcript : List Char) (videoDurationSecs : Nat := 600) :
    Except String String :=
  (extractTimeline summ transcript videoDurationSecs).map
    (fun pts => String.join (pts.map formatLine))

/-! ## Chunk segmenter: the "Create 30s Chunks" handler (app.py:125-155) -/

/-- A chunk file on disk matching `temp/chunk_*.mp4`; `locked` models a
file whose `os.remove` raises (the handler wraps each removal in
`try ... except Exception: pass`, app.py:134-137). -/
structure ChunkFile where
  idx : Nat
  locked : Bool
deriving DecidableEq, Repr

/-- The workspace state the chunk handler touches: whether
`temp/vertical_output.mp4` exists (app.py:128) and which chunk files
are on disk. -/
structure WorkState where
  verticalExists : Bool
  chunkFiles : List ChunkFile
deriving DecidableEq, Repr

/-- Outcome of one run of the chunk handler: the missing-precondition
error of app.py:129-130, the ffmpeg failure of app.py:153-155, or
success reporting the number of chunk files found on disk. -/
inductive SplitOutcome where
  | precondError : SplitOutcome
  | transformError (msg : String) : SplitOutcome
  | ok (count : Nat) : SplitOutcome
deriving DecidableEq, Repr

/-- The deletion loop app.py:133-137: each matching chunk file is
removed unless its removal raises, which is silently ignored, so
exactly the locked files survive. -/
def clearChunks (files : List ChunkFile) : List ChunkFile :=
  files.filter (fun c => c.locked)

/-- The whole handler app.py:125-155.  `svc` is the opaque media
transform service outcome: the indices of the chunk files it would
write, or its error text.  Returns the new workspace state, whether
the transform service was invoked, and the reported outcome. -/
def splitChunks (st : WorkState) (svc : Except String (List Nat)) :
    WorkState × Bool × SplitOutcome :=
  if st.verticalExists = false then (st, false, SplitOutcome.precondError)
  else
    let cleared := clearChunks st.chunkFiles
    match svc with
    | Except.error e =>
      ({ st with chunkFiles := cleared }, true, SplitOutcome.transformError e)
    | Except.ok newIdxs =>
      let final := cleared ++ newIdxs.map (fun i => { idx := i, locked := false })
      ({ st with chunkFiles := final }, true, SplitOutcome.ok final.length)

/-! ## Workspace reset: `safe_delete_dir` + clean handler (app.py:16-31, 201-211) -/

mutual
/-- A node of the scratch directory tree; a `locked` file is one whose
`os.remove` raises `PermissionError` (app.py:21-22). -/
inductive FsTree where
  | file (name : String) (locked : Bool) : FsTree
  | dir (name : String) (children : FsForest) : FsTree

/-- The ordered children of a directory. -/
inductive FsForest where
  | nil : FsForest
  | cons (t : FsTree) (rest : FsForest) : FsForest
end

mutual
/-- Net effect of the bottom-up `os.walk` of `safe_delete_dir`
(app.py:17-27) on one node: unlocked files are removed, locked files
are skipped with one warning each (app.py:21-22), and a directory is
removed exactly when everything below it was removed (`os.rmdir` on a
non-empty directory raises `OSError`, which is passed, app.py:24-27).
Returns the surviving node (if any) and the number of warnings. -/
def wipeTree : FsTree → Option FsTree × Nat
  | FsTree.file n locked =>
    if locked then (some (FsTree.file n locked), 1) else (none, 0)
  | FsTree.dir n children =>
    let r := wipeForest children
    (match r.1 with
     | FsForest.nil => none
     | f => some (FsTree.dir n f), r.2)

/-- `wipeTree` over an ordered list of siblings. -/
def wipeForest : FsForest → FsForest × Nat
  | FsForest.nil => (FsForest.nil, 0)
  | FsForest.cons t rest =>
    let rt := wipeTree t
    let rr := wipeForest rest
    (match rt.1 with
     | none => rr.1
     | some t2 => FsForest.cons t2 rr.1, rt.2 + rr.2)
end

mutual
/-- Number of permission-locked files in a node. -/
def lockedInTree : FsTree → Nat
  | FsTree.file _ locked => if locked then 1 else 0
  | FsTree.dir _ children => lockedInForest children

/-- Number of permission-locked files in a forest. -/
def lockedInForest : FsForest → Nat
  | FsForest.nil => 0
  | FsForest.cons t rest => lockedInTree t + lockedInForest rest
end

/-- Locked-file count of an optional surviving node. -/
def lockedInOpt : Option FsTree → Nat
  | none => 0
  | some t => lockedInTree t

/-- Result of the "Clean Temporary Files" handler (app.py:201-211):
after `safe_delete_dir(TEMP_DIR)` it recreates the directory with
`os.makedirs(..., exist_ok=True)`, so the path exists on return; its
contents are whatever survived the wipe, and each locked file produced
one warning. -/
structure ResetResult where
  pathExists : Bool
  contents : FsForest
  warnings : Nat

/-- The clean handler: wipe the tree below the scratch path, then
re-create the path (a no-op when the path could not be removed). -/
def resetDir (children : FsForest) : ResetResult :=
  let r := wipeForest children
  { pathExists := true, contents := r.1, warnings := r.2 }

/-! ## Transcription loop (app.py:169-186) -/

/-- A call to `model.transcribe` (app.py:178): the audio path and the
keyword arguments `language`, `fp16`. -/
structure TranscribeRequest where
  file : String
  language : String
  fp16 : Bool
deriving DecidableEq, Repr

/-- app.py:175, `detected_lang = max(probs, key=probs.get)`: the first
key of maximal score (Python `max` keeps the first among equals). -/
def detectLanguage (probs : List (String × Nat)) : String :=
  match probs with
  | [] => ""
  | p :: rest => (rest.foldl (fun best q => if best.2 < q.2 then q else best) p).1

/-- app.py:178, `model.transcribe(file_path, language="en", fp16=False)`:
the request ignores the detected language entirely. -/
def transcribeCall (filePath : String) (detectedLang : String) : TranscribeRequest :=
  { file := filePath, language := "en", fp16 := false }

/-! ## Concrete inputs used by witnesses and counterexamples -/

/-- A summarization service that always succeeds with a fixed summary
carrying surrounding whitespace (so that trimming is observable). -/
def okSumm : List Char → Except String String := fun _ => Except.ok " summary "

/-- A summarization service that always fails. -/
def badSumm : List Char → Except String String := fun _ => Except.error "service down"

/-- A 1001-character transcript: two windows, the second of length 1. -/
def wit1 : List Char := List.replicate 1001 'a'

/-- A 5000-character transcript: exactly five windows. -/
def wit5 : List Char := List.replicate 5000 'a'

/-- A 2000-character transcript: exactly two windows. -/
def twoWinT : List Char := List.replicate 2000 'a'

/-- A two-character transcript: a single window. -/
def twoChars : List Char := ['h', 'i']

/-- A workspace holding the vertical video and one stale chunk file
whose removal fails. -/
def staleSt : WorkState :=
  { verticalExists := true, chunkFiles := [{ idx := 0, locked := true }] }

/-- A scratch tree holding exactly one permission-locked file. -/
def lockedTemp : FsForest := FsForest.cons (FsTree.file "audio.wav" true) FsForest.nil

/-! ### Basic lemmas about the window partition -/

theorem getChunksAux_fuel :
    ∀ (fuelA fuelB : Nat) (s : List Char), s.length ≤ fuelA → s.length ≤ fuelB →
      getChunksAux fuelA s = getChunksAux fuelB s := by
  intro fuelA
  induction fuelA with
  | zero =>
    intro fuelB s hA hB
    have hs : s = [] := List.length_eq_zero.mp (Nat.le_zero.mp hA)
    subst hs
    cases fuelB <;> rfl
  | succ a ih =>
    intro fuelB s hA hB
    cases s with
    | nil => cases fuelB <;> rfl
    | cons c t =>
      cases fuelB with
      | zero => simp at hB
      | succ b =>
        show (c :: t).take 1000 :: getChunksAux a ((c :: t).drop 1000) =
          (c :: t).take 1000 :: getChunksAux b ((c :: t).drop 1000)
        have hlen : ((c :: t).drop 1000).length ≤ a := by
          simp only [List.length_drop, List.length_cons] at *
          omega
        have hlen2 : ((c :: t).drop 1000).length ≤ b := by
          simp only [List.length_drop, List.length_cons] at *
          omega
        rw [ih b ((c :: t).drop 1000) hlen hlen2]

theorem getChunks_eq (s : List Char) :
    getChunks s = if s = [] then [] else s.take 1000 :: getChunks (s.drop 1000) := by
  cases s with
  | nil => rfl
  | cons c t =>
    simp only [getChunks, List.length_cons]
    show (c :: t).take 1000 :: getChunksAux t.length ((c :: t).drop 1000) =
      if c :: t = [] then [] else (c :: t).take 1000 :: getChunks ((c :: t).drop 1000)
    simp only [if_neg (List.cons_ne_nil c t)]
    congr 1
    apply getChunksAux_fuel
    · simp only [List.length_drop, List.length_cons]
      omega
    · exact Nat.le_refl _

theorem getChunks_nil : getChunks [] = [] := rfl

theorem getChunks_length (s : List Char) :
    (getChunks s).length = (s.length + 999) / 1000 := by
  generalize hn : s.length = n
  induction n using Nat.strong_induction_on generalizing s with
  | _ n ih =>
    rw [getChunks_eq]
    by_cases hs : s = []
    · subst hs
      simp only [List.length_nil] at hn
      subst hn
      rfl
    · simp only [if_neg hs]
      have hpos : 0 < n := by
        rcases Nat.eq_zero_or_pos n with h0 | h
        · exact absurd (List.length_eq_zero.mp (hn ▸ h0 ▸ rfl)) hs
        · exact h
      have hdrop : (s.drop 1000).length = n - 1000 := by
        simp [List.length_drop, hn]
      rw [List.length_cons, ih (n - 1000) (by omega) (s.drop 1000) hdrop]
      omega

theorem getChunks_join (s : List Char) : (getChunks s).flatten = s := by
  generalize hn : s.length = n
  induction n using Nat.strong_induction_on generalizing s with
  | _ n ih =>
    rw [getChunks_eq]
    by_cases hs : s = []
    · subst hs; rfl
    · simp only [if_neg hs, List.flatten_cons]
      have hpos : 0 < n := by
        rcases Nat.eq_zero_or_pos n with h0 | h
        · exact absurd (List.length_eq_zero.mp (hn ▸ h0 ▸ rfl)) hs
        · exact h
      have hdrop : (s.drop 1000).length = n - 1000 := by
        simp [List.length_drop, hn]
      rw [ih (n - 1000) (by omega) (s.drop 1000) hdrop, List.take_append_drop]

theorem getChunks_mem (s : List Char) :
    ∀ w ∈ getChunks s, w ≠ [] ∧ w.length ≤ 1000 := by
  generalize hn : s.length = n
  induction n using Nat.strong_induction_on generalizing s with
  | _ n ih =>
    rw [getChunks_eq]
    by_cases hs : s = []
    · subst hs; simp
    · simp only [if_neg hs, List.mem_cons]
      have hpos : 0 < n := by
        rcases Nat.eq_zero_or_pos n with h0 | h
        · exact absurd (List.length_eq_zero.mp (hn ▸ h0 ▸ rfl)) hs
        · exact h
      have hdrop : (s.drop 1000).length = n - 1000 := by
        simp [List.length_drop, hn]
      rintro w (rfl | hw)
      · constructor
        · simp only [ne_eq, List.take_eq_nil_iff]
          push_neg
          exact ⟨by omega, hs⟩
        · simp [List.length_take]
      · exact ih (n - 1000) (by omega) (s.drop 1000) hdrop w hw

theorem getChunks_full (s : List Char) :
    ∀ (i : Nat), i + 1 < (getChunks s).length →
      ∀ w, (getChunks s).get? i = some w → w.length = 1000 := by
  generalize hn : s.length = n
  induction n using Nat.strong_induction_on generalizing s with
  | _ n ih =>
    intro i h w hw
    rcases Nat.eq_zero_or_pos n with h0 | hpos
    · subst h0
      have hs : s = [] := List.length_eq_zero.mp hn
      subst hs
      simp [getChunks_nil] at h
    · have hs : s ≠ [] := by
        intro hx; subst hx; simp at hn; omega
      have hdrop : (s.drop 1000).length = n - 1000 := by
        simp [List.length_drop, hn]
      have heq := getChunks_eq s
      rw [if_neg hs] at heq
      rw [heq] at h hw
      rcases i with _ | j
      · have hrest : 0 < (getChunks (s.drop 1000)).length := by
          simp only [List.length_cons] at h
          omega
        have hlong : 1000 < n := by
          rw [getChunks_length, hdrop] at hrest
          omega
        simp only [List.get?_cons_zero, Option.some.injEq] at hw
        rw [← hw]
        simp [List.length_take, hn]
        omega
      · have hj : j + 1 < (getChunks (s.drop 1000)).length := by
          simp only [List.length_cons] at h
          omega
        simp only [List.get?_cons_succ] at hw
        exact ih (n - 1000) (by omega) (s.drop 1000) hdrop j hj w hw

/-! ### Lemmas about the summarization loop and the timeline builder -/

theorem mapMLog_ok_length {α β : Type} (f : α → Except String β) (l : List α) :
    ∀ bs, (mapMLog f l).1 = Except.ok bs → bs.length = l.length := by
  induction l with
  | nil =>
    intro bs h
    simp only [mapMLog] at h
    cases h
    rfl
  | cons a as ih =>
    intro bs h
    simp only [mapMLog] at h
    cases hfa : f a with
    | error e => rw [hfa] at h; cases h
    | ok b =>
      rw [hfa] at h
      cases hr : (mapMLog f as).1 with
      | error e => rw [hr] at h; cases h
      | ok bs2 =>
        rw [hr] at h
        simp only [Except.map] at h
        cases h
        simp [ih bs2 hr]

theorem mapMLog_error {α β : Type} (f : α → Except String β) :
    ∀ (l : List α) (a : α), a ∈ l → ∀ e, f a = Except.error e →
      ∃ e2, (mapMLog f l).1 = Except.error e2 := by
  intro l
  induction l with
  | nil => intro a ha; cases ha
  | cons b as ih =>
    intro a ha e he
    rcases List.mem_cons.mp ha with rfl | hmem
    · refine ⟨e, ?_⟩
      simp only [mapMLog, he]
    · cases hfb : f b with
      | error e2 =>
        refine ⟨e2, ?_⟩
        simp only [mapMLog, hfb]
      | ok v =>
        obtain ⟨e2, h2⟩ := ih a hmem e he
        refine ⟨e2, ?_⟩
        simp only [mapMLog, hfb, h2, Except.map]

theorem buildPoints_length (l : List String) :
    ∀ (i st sp : Nat), (buildPoints l i st sp).length = l.length := by
  induction l with
  | nil => intro i st sp; rfl
  | cons p rest ih =>
    intro i st sp
    simp only [buildPoints, List.length_cons, ih]

theorem buildPoints_get (l : List String) :
    ∀ (i st sp j : Nat) (h : j < l.length),
      (buildPoints l i st sp).get?  j =
        some { ordinal := i + j, start := st + j * sp, stop := st + j * sp + 30,
               summary := l.get ⟨j, h⟩ } := by
  induction l with
  | nil => intro i st sp j h; simp at h
  | cons p rest ih =>
    intro i st sp j h
    cases j with
    | zero => simp [buildPoints]
    | succ k =>
      have hk : k < rest.length := by simp at h; omega
      simp only [buildPoints, List.get?_cons_succ]
      rw [ih (i + 1) (st + sp) sp k hk]
      congr 1
      simp only [HighlightPoint.mk.injEq]
      refine ⟨by omega, by ring_nf, by ring_nf, rfl⟩

theorem buildPoints_stop (l : List String) :
    ∀ (i st sp : Nat), ∀ p ∈ buildPoints l i st sp, p.stop = p.start + 30 := by
  induction l with
  | nil => intro i st sp p hp; cases hp
  | cons q rest ih =>
    intro i st sp p hp
    rcases List.mem_cons.mp hp with rfl | hmem
    · rfl
    · exact ih (i + 1) (st + sp) sp p hmem

theorem buildPoints_start_le (l : List String) :
    ∀ (i st sp : Nat), ∀ p ∈ buildPoints l i st sp, st ≤ p.start := by
  induction l with
  | nil => intro i st sp p hp; cases hp
  | cons a rest ih =>
    intro i st sp p hp
    rcases List.mem_cons.mp hp with rfl | hmem
    · exact Nat.le_refl _
    · have := ih (i + 1) (st + sp) sp p hmem
      omega

theorem buildPoints_pairwise (l : List String) :
    ∀ (i st sp : Nat), 1 ≤ sp →
      (buildPoints l i st sp).Pairwise (fun p q => p.start < q.start) := by
  induction l with
  | nil => intro i st sp hsp; exact List.Pairwise.nil
  | cons a rest ih =>
    intro i st sp hsp
    refine List.pairwise_cons.mpr ⟨?_, ih (i + 1) (st + sp) sp hsp⟩
    intro q hq
    have hle := buildPoints_start_le rest (i + 1) (st + sp) sp q hq
    show st < q.start
    omega

/-! ### Evaluation lemmas for the concrete example transcripts -/

theorem getChunks_replicate_step (n : Nat) (c : Char) (h : 1000 < n) :
    getChunks (List.replicate n c) =
      List.replicate 1000 c :: getChunks (List.replicate (n - 1000) c) := by
  have hne : List.replicate n c ≠ [] := by
    rw [ne_eq, List.replicate_eq_nil_iff]
    omega
  rw [getChunks_eq, if_neg hne, List.take_replicate, List.drop_replicate,
    Nat.min_eq_left (by omega : 1000 ≤ n)]

theorem getChunks_replicate_last (n : Nat) (c : Char) (h1 : 0 < n) (h2 : n ≤ 1000) :
    getChunks (List.replicate n c) = [List.replicate n c] := by
  have hne : List.replicate n c ≠ [] := by
    rw [ne_eq, List.replicate_eq_nil_iff]
    omega
  rw [getChunks_eq, if_neg hne, List.take_replicate, List.drop_replicate,
    Nat.min_eq_right (by omega : n ≤ 1000),
    (by omega : n - 1000 = 0), List.replicate_zero, getChunks_nil]

theorem gc1001 : getChunks wit1 = [List.replicate 1000 'a', ['a']] := by
  rw [wit1, getChunks_replicate_step 1001 'a' (by omega),
    (by omega : 1001 - 1000 = 1),
    getChunks_replicate_last 1 'a' (by omega) (by omega)]
  rfl

theorem ext1001 : extractTimeline okSumm wit1 600 =
    Except.ok [⟨1, 200, 230, " summary "⟩, ⟨2, 400, 430, " summary "⟩] := by
  rw [extractTimeline, gc1001]
  rfl

theorem gc5000 : getChunks wit5 =
    [List.replicate 1000 'a', List.replicate 1000 'a', List.replicate 1000 'a',
     List.replicate 1000 'a', List.replicate 1000 'a'] := by
  rw [wit5, getChunks_replicate_step 5000 'a' (by omega),
    (by omega : 5000 - 1000 = 4000),
    getChunks_replicate_step 4000 'a' (by omega),
    (by omega : 4000 - 1000 = 3000),
    getChunks_replicate_step 3000 'a' (by omega),
    (by omega : 3000 - 1000 = 2000),
    getChunks_replicate_step 2000 'a' (by omega),
    (by omega : 2000 - 1000 = 1000),
    getChunks_replicate_last 1000 'a' (by omega) (by omega)]

theorem gc2000 : getChunks twoWinT = [List.replicate 1000 'a', List.replicate 1000 'a'] := by
  rw [twoWinT, getChunks_replicate_step 2000 'a' (by omega),
    (by omega : 2000 - 1000 = 1000),
    getChunks_replicate_last 1000 'a' (by omega) (by omega)]

theorem ext2000 : extractTimeline okSumm twoWinT 0 =
    Except.ok [⟨1, 0, 30, " summary "⟩, ⟨2, 0, 30, " summary "⟩] := by
  rw [extractTimeline, gc2000]
  rfl

/-! ### Lemmas about the workspace wipe -/

mutual
theorem wipeTree_spec : (t : FsTree) →
    (wipeTree t).2 = lockedInTree t ∧
    ((wipeTree t).1 = none ↔ lockedInTree t = 0) ∧
    lockedInOpt (wipeTree t).1 = lockedInTree t
  | FsTree.file n locked => by
    cases locked with
    | false => exact ⟨rfl, by simp [wipeTree, lockedInTree, lockedInOpt], rfl⟩
    | true =>
      refine ⟨rfl, ?_, rfl⟩
      simp [wipeTree, lockedInTree]
  | FsTree.dir n children => by
    have hf := wipeForest_spec children
    refine ⟨hf.1, ?_, ?_⟩
    · show (match (wipeForest children).1 with
        | FsForest.nil => none
        | f => some (FsTree.dir n f)) = none ↔ lockedInTree (FsTree.dir n children) = 0
      cases hr1 : (wipeForest children).1 with
      | nil =>
        refine ⟨fun _ => ?_, fun _ => rfl⟩
        show lockedInForest children = 0
        exact hf.2.1.mp hr1
      | cons t2 rest2 =>
        constructor
        · intro hx; cases hx
        · intro hx
          have := hf.2.1.mpr hx
          rw [hr1] at this
          cases this
    · show lockedInOpt (match (wipeForest children).1 with
        | FsForest.nil => none
        | f => some (FsTree.dir n f)) = lockedInTree (FsTree.dir n children)
      cases hr1 : (wipeForest children).1 with
      | nil =>
        have h0 := hf.2.1.mp hr1
        simp only [lockedInOpt, lockedInTree]
        omega
      | cons t2 rest2 =>
        have h3 := hf.2.2
        rw [hr1] at h3
        simp only [lockedInOpt, lockedInTree]
        exact h3

theorem wipeForest_spec : (f : FsForest) →
    (wipeForest f).2 = lockedInForest f ∧
    ((wipeForest f).1 = FsForest.nil ↔ lockedInForest f = 0) ∧
    lockedInForest (wipeForest f).1 = lockedInForest f
  | FsForest.nil => ⟨rfl, by simp [wipeForest, lockedInForest], rfl⟩
  | FsForest.cons t rest => by
    have ht := wipeTree_spec t
    have hr := wipeForest_spec rest
    refine ⟨?_, ?_, ?_⟩
    · show (wipeTree t).2 + (wipeForest rest).2 = lockedInForest (FsForest.cons t rest)
      rw [ht.1, hr.1]
      rfl
    · show (match (wipeTree t).1 with
        | none => (wipeForest rest).1
        | some t2 => FsForest.cons t2 (wipeForest rest).1) = FsForest.nil ↔
          lockedInForest (FsForest.cons t rest) = 0
      cases hrt : (wipeTree t).1 with
      | none =>
        have h0 := ht.2.1.mp hrt
        simp only [lockedInForest]
        rw [hr.2.1]
        omega
      | some t2 =>
        constructor
        · intro hx; cases hx
        · intro hx
          simp only [lockedInForest] at hx
          have := ht.2.1.mpr (by omega)
          rw [hrt] at this
          cases this
    · show lockedInForest (match (wipeTree t).1 with
        | none => (wipeForest rest).1
        | some t2 => FsForest.cons t2 (wipeForest rest).1) =
          lockedInForest (FsForest.cons t rest)
      cases hrt : (wipeTree t).1 with
      | none =>
        have h0 := ht.2.1.mp hrt
        rw [hr.2.2]
        simp only [lockedInForest]
        omega
      | some t2 =>
        have h3 := ht.2.2
        rw [hrt] at h3
        simp only [lockedInOpt] at h3
        simp only [lockedInForest]
        rw [hr.2.2, h3]
end

/-! ## Claim theorems -/

/-- C1: for every transcript of length L, `getChunks` yields exactly
ceil(L / 1000) = (L + 999) / 1000 windows; concatenating them in
left-to-right order reconstructs the transcript exactly (hence no
gaps, no overlap, text order); every window is non-empty and at most
1000 characters; and every window except possibly the last is exactly
1000 characters. -/
theorem chunk_partition (s : List Char) :
    (getChunks s).length = (s.length + 999) / 1000 ∧
    (getChunks s).flatten = s ∧
    (∀ w ∈ getChunks s, w ≠ [] ∧ w.length ≤ 1000) ∧
    (∀ i, i + 1 < (getChunks s).length →
      ∀ w, (getChunks s).get? i = some w → w.length = 1000) :=
  ⟨getChunks_length s, getChunks_join s, getChunks_mem s, getChunks_full s⟩

/-- Witness for C1 on the 1001-character transcript: two windows, the
first (non-last) of length exactly 1000, concatenation restores the
transcript. -/
theorem chunk_partition_witness :
    (0 + 1 < (getChunks wit1).length ∧
      (getChunks wit1).get? 0 = some (List.replicate 1000 'a')) ∧
    (List.replicate 1000 'a').length = 1000 ∧
    (getChunks wit1).flatten = wit1 := by
  have h1 : 0 + 1 < (getChunks wit1).length := by
    rw [gc1001]
    simp only [List.length_cons, List.length_nil]
    omega
  have h2 : (getChunks wit1).get? 0 = some (List.replicate 1000 'a') := by
    rw [gc1001]
    rfl
  exact ⟨⟨h1, h2⟩, (chunk_partition wit1).2.2.2 0 h1 _ h2, (chunk_partition wit1).2.1⟩

/-- C2: whenever extraction succeeds, the produced timeline has
exactly `min 5 window_count` points, whose 1-based ordinals are
`1..len` with no gaps; for the empty transcript the timeline is empty
and no window is ever handed to the summarization service. -/
theorem timeline_count (summ : List Char → Except String String)
    (t : List Char) (dur : Nat) (pts : List HighlightPoint)
    (h : extractTimeline summ t dur = Except.ok pts) :
    pts.length = min 5 (getChunks t).length ∧
    (∀ i, i < pts.length → ∀ p, pts.get? i = some p → p.ordinal = i + 1) ∧
    (t = [] → pts = [] ∧ summarizerCalls summ t = []) := by
  rw [extractTimeline] at h
  cases hmap : (mapMLog summ (getChunks t)).1 with
  | error e => rw [hmap] at h; cases h
  | ok hs =>
    rw [hmap] at h
    simp only [Except.map] at h
    injection h with h
    subst h
    have hlen := mapMLog_ok_length summ (getChunks t) hs hmap
    have hL : (highlightTimeline hs dur).length = min 5 (getChunks t).length := by
      rw [highlightTimeline, buildPoints_length, List.length_take, totalSegments]
      omega
    refine ⟨hL, ?_, ?_⟩
    · intro i hi p hp
      have hiL : i < (hs.take (totalSegments hs)).length := by
        rw [hL] at hi
        rw [List.length_take, totalSegments]
        omega
      have hg := buildPoints_get (hs.take (totalSegments hs))
        1 (timeStep hs dur) (timeStep hs dur) i hiL
      rw [highlightTimeline] at hp
      rw [hp] at hg
      injection hg with hq
      rw [hq]
      show 1 + i = i + 1
      omega
    · rintro rfl
      have hhs : hs = [] := by
        have h2 : (mapMLog summ (getChunks ([] : List Char))).1 =
            Except.ok ([] : List String) := rfl
        rw [hmap] at h2
        exact Except.ok.inj h2
      subst hhs
      exact ⟨rfl, rfl⟩

/-- Witness for C2: a successful extraction over the two-window
transcript produces 2 = min 5 2 points. -/
theorem timeline_count_witness :
    extractTimeline okSumm wit1 600 =
      Except.ok [⟨1, 200, 230, " summary "⟩, ⟨2, 400, 430, " summary "⟩] ∧
    ([⟨1, 200, 230, " summary "⟩, ⟨2, 400, 430, " summary "⟩] :
        List HighlightPoint).length = min 5 (getChunks wit1).length :=
  ⟨ext1001, (timeline_count okSumm wit1 600 _ ext1001).1⟩

/-- C3: with total duration 600 and at least five windows, the
extractor keeps `total_segments = 5` summaries and uses
`time_step = 600 // 6 = 100`; the five start offsets are
100, 200, 300, 400, 500 seconds, every end offset is its start + 30,
and the first formatted line is
`"1. 00:01:40 - 00:02:10: <summary trimmed of surrounding whitespace>"`. -/
theorem timeline_default_duration (summ : List Char → Except String String)
    (t : List Char) (hs : List String)
    (h5 : 5 ≤ (getChunks t).length)
    (hok : (mapMLog summ (getChunks t)).1 = Except.ok hs) :
    totalSegments hs = 5 ∧
    timeStep hs 600 = 100 ∧
    (highlightTimeline hs 600).map (fun p => p.start) = [100, 200, 300, 400, 500] ∧
    (∀ p ∈ highlightTimeline hs 600, p.stop = p.start + 30) ∧
    ((highlightTimeline hs 600).map formatLine).head? =
      hs.head?.map (fun s0 => "1. 00:01:40 - 00:02:10: " ++ s0.trim ++ "\n") := by
  have hlen : hs.length = (getChunks t).length := mapMLog_ok_length summ _ hs hok
  have h5' : 5 ≤ hs.length := by omega
  rcases hs with _ | ⟨a, _ | ⟨b, _ | ⟨c, _ | ⟨d, _ | ⟨e, rest⟩⟩⟩⟩⟩
  · simp at h5'
  · simp at h5'
  · simp at h5'
  · simp at h5'
  · simp at h5'
  · have hseg : totalSegments (a :: b :: c :: d :: e :: rest) = 5 := by
      rw [totalSegments]
      simp only [List.length_cons]
      omega
    have hstep : timeStep (a :: b :: c :: d :: e :: rest) 600 = 100 := by
      rw [timeStep, timeStepDivisor, hseg]
    have hpts : highlightTimeline (a :: b :: c :: d :: e :: rest) 600 =
        [⟨1, 100, 130, a⟩, ⟨2, 200, 230, b⟩, ⟨3, 300, 330, c⟩,
         ⟨4, 400, 430, d⟩, ⟨5, 500, 530, e⟩] := by
      rw [highlightTimeline, hseg, hstep]
      simp only [List.take_succ_cons, List.take_zero]
      rfl
    refine ⟨hseg, hstep, ?_, ?_, ?_⟩
    · rw [hpts]
      rfl
    · rw [hpts]
      intro p hp
      simp only [List.mem_cons, List.not_mem_nil, or_false] at hp
      rcases hp with rfl | rfl | rfl | rfl | rfl <;> rfl
    · rw [hpts]
      have hL : toString (1 : Nat) ++ ". " ++ formatTimestamp 100 ++ " - " ++
          formatTimestamp 130 ++ ": " = "1. 00:01:40 - 00:02:10: " := by decide
      show some ((toString (1 : Nat) ++ ". " ++ formatTimestamp 100 ++ " - " ++
          formatTimestamp 130 ++ ": ") ++ a.trim ++ "\n") =
        some ("1. 00:01:40 - 00:02:10: " ++ a.trim ++ "\n")
      rw [hL]

/-- Witness for C3 on the five-window transcript with an
always-succeeding summarizer. -/
theorem timeline_default_duration_witness :
    (5 ≤ (getChunks wit5).length ∧
      (mapMLog okSumm (getChunks wit5)).1 =
        Except.ok [" summary ", " summary ", " summary ", " summary ", " summary "]) ∧
    (highlightTimeline
        [" summary ", " summary ", " summary ", " summary ", " summary "] 600).map
      (fun p => p.start) = [100, 200, 300, 400, 500] := by
  have ha : 5 ≤ (getChunks wit5).length := by
    rw [gc5000]
    simp only [List.length_cons, List.length_nil]
    omega
  have hb : (mapMLog okSumm (getChunks wit5)).1 =
      Except.ok [" summary ", " summary ", " summary ", " summary ", " summary "] := by
    rw [gc5000]
    rfl
  exact ⟨⟨ha, hb⟩, (timeline_default_duration okSumm wit5 _ ha hb).2.2.1⟩

/-- C4 as amended: for every transcript, summarizer outcome and total
duration, each produced highlight point ends exactly 30 seconds after
it starts; and whenever the computed time step
`dur // (total_segments + 1)` is at least 1 (which holds in particular
for the default duration 600), the start offsets are strictly
increasing.  The unamended claim fails when the time step is 0, see
the counterexample. -/
theorem timeline_spacing (summ : List Char → Except String String)
    (t : List Char) (dur : Nat) (pts : List HighlightPoint)
    (h : extractTimeline summ t dur = Except.ok pts) :
    (∀ p ∈ pts, p.stop = p.start + 30) ∧
    (1 ≤ dur / (pts.length + 1) →
      pts.Pairwise (fun p q => p.start < q.start)) := by
  rw [extractTimeline] at h
  cases hmap : (mapMLog summ (getChunks t)).1 with
  | error e => rw [hmap] at h; cases h
  | ok hs =>
    rw [hmap] at h
    simp only [Except.map] at h
    injection h with h
    subst h
    constructor
    · exact buildPoints_stop _ _ _ _
    · intro hstep
      have hlen2 : (highlightTimeline hs dur).length = min 5 hs.length := by
        rw [highlightTimeline, buildPoints_length, List.length_take, totalSegments]
        omega
      rw [hlen2] at hstep
      exact buildPoints_pairwise _ 1 _ _ hstep

/-- Witness for C4 (amended): at the default duration 600 with two
windows the time step is 200 ≥ 1 and the start offsets 200 < 400 are
strictly increasing. -/
theorem timeline_spacing_witness :
    (extractTimeline okSumm wit1 600 =
        Except.ok [⟨1, 200, 230, " summary "⟩, ⟨2, 400, 430, " summary "⟩] ∧
      1 ≤ 600 / (([⟨1, 200, 230, " summary "⟩, ⟨2, 400, 430, " summary "⟩] :
          List HighlightPoint).length + 1)) ∧
    ([⟨1, 200, 230, " summary "⟩, ⟨2, 400, 430, " summary "⟩] :
        List HighlightPoint).Pairwise (fun p q => p.start < q.start) := by
  have hstep : 1 ≤ 600 / (([⟨1, 200, 230, " summary "⟩, ⟨2, 400, 430, " summary "⟩] :
      List HighlightPoint).length + 1) := by
    simp only [List.length_cons, List.length_nil]
    omega
  exact ⟨⟨ext1001, hstep⟩, (timeline_spacing okSumm wit1 600 _ ext1001).2 hstep⟩

/-- C4 counterexample: running the extractor with total duration 0 on
the two-window transcript gives time step 0 // 3 = 0; both produced
highlight points start at offset 0, so the start offsets are not
strictly increasing, refuting the claim for arbitrary total
durations. -/
theorem timeline_spacing_cex :
    extractTimeline okSumm twoWinT 0 =
      Except.ok [⟨1, 0, 30, " summary "⟩, ⟨2, 0, 30, " summary "⟩] ∧
    ¬ (([⟨1, 0, 30, " summary "⟩, ⟨2, 0, 30, " summary "⟩] :
        List HighlightPoint).Pairwise (fun p q => p.start < q.start)) := by
  refine ⟨ext2000, ?_⟩
  intro hp
  have h01 := (List.pairwise_cons.mp hp).1 _ (List.mem_cons_self _ _)
  exact Nat.lt_irrefl 0 h01

/-- C5: if the summarization service fails on any window of the
transcript, the whole extraction fails with a `HighlightError` (the
propagated summarizer exception): no highlight point list and no
formatted string is ever returned, so no prefix of the timeline
reaches the caller. -/
theorem extract_fail_atomic (summ : List Char → Except String String)
    (t : List Char) (dur : Nat) (c : List Char) (hc : c ∈ getChunks t)
    (e : String) (he : summ c = Except.error e) :
    (∃ e2, extractTimeline summ t dur = Except.error e2) ∧
    (∀ pts, extractTimeline summ t dur ≠ Except.ok pts) ∧
    (∃ e2, getReelSegments summ t dur = Except.error e2) := by
  obtain ⟨e2, h2⟩ := mapMLog_error summ (getChunks t) c hc e he
  refine ⟨⟨e2, ?_⟩, ?_, ⟨e2, ?_⟩⟩
  · rw [extractTimeline, h2]
    rfl
  · intro pts hpts
    rw [extractTimeline, h2] at hpts
    cases hpts
  · rw [getReelSegments, extractTimeline, h2]
    rfl

/-- Witness for C5: the always-failing summarizer on the one-window
transcript makes the whole extraction fail. -/
theorem extract_fail_atomic_witness :
    (['h', 'i'] ∈ getChunks twoChars ∧
      badSumm ['h', 'i'] = Except.error "service down") ∧
    (∀ pts, extractTimeline badSumm twoChars 600 ≠ Except.ok pts) := by
  have hc : ['h', 'i'] ∈ getChunks twoChars := by
    rw [show getChunks twoChars = [['h', 'i']] from rfl]
    exact List.mem_singleton.mpr rfl
  exact ⟨⟨hc, rfl⟩, (extract_fail_atomic badSumm twoChars 600 _ hc _ rfl).2.1⟩

/-- C6: running the chunk splitter when the vertical video artifact
does not exist yields the precondition error of app.py:128-130,
leaves the workspace exactly as it was (zero chunk files produced) and
never invokes the media transform service: the handler stops before
the try block, so the result does not depend on the service at all. -/
theorem split_missing_vertical (st : WorkState) (svc : Except String (List Nat))
    (h : st.verticalExists = false) :
    splitChunks st svc = (st, false, SplitOutcome.precondError) := by
  rw [splitChunks, if_pos h]

/-- Witness for C6: a fresh workspace with no vertical video. -/
theorem split_missing_vertical_witness :
    ({ verticalExists := false, chunkFiles := [] } : WorkState).verticalExists = false ∧
    splitChunks { verticalExists := false, chunkFiles := [] } (Except.ok [0, 1]) =
      ({ verticalExists := false, chunkFiles := [] }, false, SplitOutcome.precondError) :=
  ⟨rfl, split_missing_vertical _ _ rfl⟩

/-- C7 as amended: with the vertical artifact present, the handler
first attempts to delete every chunk file matching the pattern,
silently skipping any file whose removal fails (app.py:133-137,
`except Exception: pass`); when the transform service then fails, the
chunk files still on disk are exactly the stale ones whose removal
failed (the locked ones): every removable stale chunk is gone, but a
permission-locked stale chunk survives, so the unamended "zero chunk
files from any previous run remain" does not hold (see the
counterexample). -/
theorem split_clears_unlocked (st : WorkState) (e : String)
    (h : st.verticalExists = true) :
    (splitChunks st (Except.error e)).1.chunkFiles = clearChunks st.chunkFiles ∧
    (∀ c ∈ (splitChunks st (Except.error e)).1.chunkFiles,
      c ∈ st.chunkFiles ∧ c.locked = true) ∧
    (∀ c ∈ st.chunkFiles, c.locked = false →
      c ∉ (splitChunks st (Except.error e)).1.chunkFiles) ∧
    (splitChunks st (Except.error e)).2.2 = SplitOutcome.transformError e := by
  have hsplit : splitChunks st (Except.error e) =
      ({ st with chunkFiles := clearChunks st.chunkFiles }, true,
        SplitOutcome.transformError e) := by
    rw [splitChunks, if_neg (by simp [h])]
  rw [hsplit]
  refine ⟨rfl, ?_, ?_, rfl⟩
  · intro c hc
    refine ⟨List.mem_of_mem_filter hc, ?_⟩
    simpa using List.of_mem_filter hc
  · intro c _ hunlocked hmem
    have hl : c.locked = true := by simpa using List.of_mem_filter hmem
    rw [hunlocked] at hl
    cases hl

/-- Witness for C7 (amended): one unlocked stale chunk is cleared even
though the transform service fails. -/
theorem split_clears_unlocked_witness :
    ({ verticalExists := true, chunkFiles := [{ idx := 3, locked := false }] } :
        WorkState).verticalExists = true ∧
    (splitChunks { verticalExists := true, chunkFiles := [{ idx := 3, locked := false }] }
        (Except.error "boom")).1.chunkFiles =
      clearChunks [{ idx := 3, locked := false }] :=
  ⟨rfl, (split_clears_unlocked
      { verticalExists := true, chunkFiles := [{ idx := 3, locked := false }] }
      "boom" rfl).1⟩

/-- C7 counterexample: the vertical artifact exists, one stale chunk
file is permission-locked, and the transform service fails: the locked
stale chunk from the previous run is still on disk after the failing
run, refuting "zero chunk files from any previous run remain". -/
theorem split_stale_chunk_cex :
    (splitChunks staleSt (Except.error "boom")).1.chunkFiles =
      [{ idx := 0, locked := true }] ∧
    (splitChunks staleSt (Except.error "boom")).2.2 =
      SplitOutcome.transformError "boom" ∧
    (splitChunks staleSt (Except.error "boom")).1.chunkFiles ≠ [] := by
  refine ⟨rfl, rfl, ?_⟩
  intro h
  exact List.cons_ne_nil _ _ h

/-- C8: the full-text transcription request built by the loop
app.py:169-186 always carries `language="en"` (and `fp16=False`),
whatever language the detection step computed from the probability
table: the request is entirely independent of the detected language. -/
theorem transcribe_forced_english (probs : List (String × Nat)) (path : String) :
    (transcribeCall path (detectLanguage probs)).language = "en" ∧
    (transcribeCall path (detectLanguage probs)).fp16 = false ∧
    ∀ d1 d2 : String, transcribeCall path d1 = transcribeCall path d2 :=
  ⟨rfl, rfl, fun _ _ => rfl⟩

/-- C9 as amended: resetting a scratch tree that contains exactly one
permission-locked file never raises (every failing removal is caught),
reports exactly one cleanup warning, and leaves the path existing on
return — but the path is NOT empty: the locked file (with its chain of
ancestor directories) is still inside it, since `os.remove` failed on
it and every `os.rmdir` above it then failed too.  The unamended
"leaves path existing as an empty directory" is refuted by the
counterexample. -/
theorem reset_one_locked (f : FsForest) (h : lockedInForest f = 1) :
    (resetDir f).pathExists = true ∧
    (resetDir f).warnings = 1 ∧
    (resetDir f).contents ≠ FsForest.nil ∧
    lockedInForest (resetDir f).contents = 1 := by
  have hf := wipeForest_spec f
  refine ⟨rfl, ?_, ?_, ?_⟩
  · show (wipeForest f).2 = 1
    rw [hf.1, h]
  · show (wipeForest f).1 ≠ FsForest.nil
    intro hnil
    have := hf.2.1.mp hnil
    omega
  · show lockedInForest (wipeForest f).1 = 1
    rw [hf.2.2, h]

/-- Witness for C9 (amended): the scratch tree with a single locked
file produces exactly one warning. -/
theorem reset_one_locked_witness :
    lockedInForest lockedTemp = 1 ∧ (resetDir lockedTemp).warnings = 1 :=
  ⟨rfl, (reset_one_locked lockedTemp rfl).2.1⟩

/-- C9 counterexample: resetting a scratch directory holding exactly
one permission-locked file reports one warning and keeps the path in
place, but the locked file could not be removed, so the directory is
not empty on return — refuting "leaves path existing as an empty
directory". -/
theorem reset_one_locked_cex :
    lockedInForest lockedTemp = 1 ∧
    (resetDir lockedTemp).warnings = 1 ∧
    (resetDir lockedTemp).contents =
      FsForest.cons (FsTree.file "audio.wav" true) FsForest.nil ∧
    (resetDir lockedTemp).contents ≠ FsForest.nil := by
  refine ⟨rfl, rfl, rfl, ?_⟩
  intro h
  have h2 : FsForest.cons (FsTree.file "audio.wav" true) FsForest.nil =
      FsForest.nil := h
  cases h2

/-- C10: the divisor of the time-step division (app.py:53) is
`total_segments + 1` with `total_segments = min 5 (number of
summaries)`, hence at least 1 for every transcript, including the
empty one: the extractor's integer division is never by zero. -/
theorem time_step_divisor_pos (hs : List String) (dur : Nat) :
    timeStepDivisor hs = min 5 hs.length + 1 ∧
    0 < timeStepDivisor hs ∧
    timeStep hs dur = dur / timeStepDivisor hs :=
  ⟨rfl, Nat.succ_pos _, rfl⟩

end Reelify
